import Mathlib

/-!
Verification of the craftr build-graph core (`src/craftr/api/__init__.py`)
against its natural-language specification.

Targets are identified by natural numbers; a dependency graph is a function
from a target id to its ordered list of `Dep` edges.  Python strings are
embedded as `List Char`, Python generators as fuel-indexed list producers,
and mutable state is passed explicitly.  Definitions come first, then the
theorems about them.
-/

namespace Craftr

/-! # Definitions -/

/-- A dependency edge: destination target id and the public visibility flag
(`Target.Dependency` in the source). -/
structure Dep where
  target : Nat
  public : Bool
deriving DecidableEq

/-- The inner generator of `Target.transitive_dependencies`:

    def worker(target, include_private=False):
      for dep in target.dependencies:
        if dep.public or include_private:
          yield dep
        yield from worker(dep.target)

Note the recursive call is made for every edge, public or private; only the
yield itself is guarded.  `fuel` bounds the recursion depth (the Python
generator does not terminate on cyclic graphs). -/
def worker (deps : Nat → List Dep) : Nat → Nat → Bool → List Dep
  | 0, _, _ => []
  | fuel + 1, t, includePrivate =>
    (deps t).flatMap (fun d =>
      (if d.public || includePrivate then [d] else []) ++ worker deps fuel d.target false)

/-- `stream.unique(it, key=lambda d: d.target)`: keep the first edge for each
destination target, drop later duplicates (behaviour documented by the
docstring of `transitive_dependencies` itself). -/
def uniqueBy : List Dep → List Nat → List Dep
  | [], _ => []
  | d :: ds, seen =>
    if d.target ∈ seen then uniqueBy ds seen
    else d :: uniqueBy ds (d.target :: seen)

/-- `Target.transitive_dependencies`: the deduplicated depth-first edge
stream, rooted at `t` with `include_private=True`. -/
def transitive_dependencies (deps : Nat → List Dep) (fuel t : Nat) : List Dep :=
  uniqueBy (worker deps fuel t true) []

/-- Concrete graph for C1: target 0 (E) depends publicly on 1 (A); A depends
privately on 2 (B); B depends publicly on 3 (C); nothing else depends on B. -/
def depsC1 : Nat → List Dep
  | 0 => [⟨1, true⟩]
  | 1 => [⟨2, false⟩]
  | 2 => [⟨3, true⟩]
  | _ => []

/-- Diamond graph for C3: A = 0 depends publicly on B = 1 and C = 2; both B
and C depend publicly on D = 3. -/
def depsDiamond : Nat → List Dep
  | 0 => [⟨1, true⟩, ⟨2, true⟩]
  | 1 => [⟨3, true⟩]
  | 2 => [⟨3, true⟩]
  | _ => []

/-- `Target.add_dependency(target, public, do_raise)` on the ordered
dependency list:

    for x in self._dependencies:
      if x.target is target:
        if do_raise: raise RuntimeError(...)
        x.public = x.public or public
        return x
    dep = Target.Dependency(target, public)
    self._dependencies.append(dep)
    return dep

Returns the updated list together with the returned edge, or the raised
error. -/
def add_dependency : List Dep → Nat → Bool → Bool → Except String (List Dep × Dep)
  | [], tgt, pub, _ => .ok ([⟨tgt, pub⟩], ⟨tgt, pub⟩)
  | x :: xs, tgt, pub, doRaise =>
    if x.target = tgt then
      if doRaise then .error "dependency already exists"
      else .ok (⟨x.target, x.public || pub⟩ :: xs, ⟨x.target, x.public || pub⟩)
    else
      match add_dependency xs tgt pub doRaise with
      | .error e => .error e
      | .ok (ys, d) => .ok (x :: ys, d)

/-- Modelled from the spec: the ordered-list property type's merge rule
(`prop.type.inherit` of `craftr/api/proplib.py`, which is not under `src/`)
is ordered concatenation of the candidate values without de-duplication. -/
def listInherit (vals : List (List Nat)) : List Nat := vals.flatten

/-- The candidate generator `iter_values()` of `Target.get_prop` with
`inherit=True`: the target's own public value if set, then its own private
value if set, then for each edge of `transitive_dependencies()` in traversal
order the destination target's public value if set.  `pubV`/`prvV` give the
sparse public/private containers of each target for the one property under
consideration. -/
def inherit_candidates (deps : Nat → List Dep) (pubV prvV : Nat → Option (List Nat))
    (fuel t : Nat) : List (List Nat) :=
  (pubV t).toList ++ (prvV t).toList ++
    ((transitive_dependencies deps fuel t).filterMap (fun d => pubV d.target))

/-- `Target.get_prop(prop_name, inherit=True)`: merge the candidate sequence
with the list type's rule; an empty candidate sequence raises
`StopIteration` inside the merge, which `get_prop` turns into the plain
default. -/
def get_prop_inherit (deps : Nat → List Dep) (pubV prvV : Nat → Option (List Nat))
    (fuel t : Nat) (dflt : List Nat) : List Nat :=
  let cs := inherit_candidates deps pubV prvV fuel t
  if cs.isEmpty then dflt else listInherit cs

/-- Concrete one-edge graph for C2: target 0 depends publicly on target 1. -/
def depsC2 : Nat → List Dep
  | 0 => [⟨1, true⟩]
  | _ => []

/-- Public property values for the C2 example: own public value `[1]` on
target 0, exported value `[3]` on the dependency target 1. -/
def pubValsC2 : Nat → Option (List Nat)
  | 0 => some [1]
  | 1 => some [3]
  | _ => none

/-- Private property values for the C2 example: own private value `[2]` on
target 0. -/
def prvValsC2 : Nat → Option (List Nat)
  | 0 => some [2]
  | _ => none

/-! ## Current-context accessors (C9) -/

/-- The part of a `Target` that the context accessors inspect: its id and the
currently bound operator, if any. -/
structure TargetRef where
  id : Nat
  currentOperator : Option Nat
deriving DecidableEq

/-- The part of a `Scope` that the context accessors inspect.  `name` and
`version` are `none` when unset (`Scope` may be created before `project()`
runs). -/
structure ScopeS where
  name : Option (List Char)
  version : Option (List Char)
  currentTarget : Option TargetRef
deriving DecidableEq

/-- The session's scope stack (`Session._current_scopes`); the current scope
is the innermost (last) entry. -/
structure SessionCtx where
  scopes : List ScopeS
deriving DecidableEq

/-- Python truthiness of an optional string: `None` and the empty string are
falsy. -/
def falsyStr : Option (List Char) → Bool
  | none => true
  | some s => s.isEmpty

/-- `Session.current_scope`: the top of the scope stack. -/
def sessionCurrentScope (st : SessionCtx) : Option ScopeS := st.scopes.getLast?

/-- `current_scope(do_raise)`:

    scope = session.current_scope
    if do_raise and scope is None: raise RuntimeError('no current scope')
    if scope and (not scope.name or not scope.version):
      if not do_raise: return None
      raise RuntimeError('current scope has no name/version, ...')
    return scope
-/
def current_scope (st : SessionCtx) (doRaise : Bool) : Except String (Option ScopeS) :=
  let scope := sessionCurrentScope st
  if doRaise && scope.isNone then .error "no current scope"
  else
    match scope with
    | some sc =>
      if falsyStr sc.name || falsyStr sc.version then
        if !doRaise then .ok none
        else .error "current scope has no name/version, use project() function to initialize"
      else .ok (some sc)
    | none => .ok none

/-- `current_target(do_raise)`:

    scope = current_scope(do_raise)
    target = scope and scope.current_target
    if do_raise and target is None: raise RuntimeError('no current target')
    return target
-/
def current_target (st : SessionCtx) (doRaise : Bool) : Except String (Option TargetRef) :=
  match current_scope st doRaise with
  | .error e => .error e
  | .ok scope =>
    let target := scope.bind (fun sc => sc.currentTarget)
    if doRaise && target.isNone then .error "no current target"
    else .ok target

/-- `current_operator(do_raise)`:

    target = current_target(do_raise)
    operator = target and target.current_operator
    if do_raise and operator is None: raise RuntimeError('no current operator')
    return operator
-/
def current_operator (st : SessionCtx) (doRaise : Bool) : Except String (Option Nat) :=
  match current_target st doRaise with
  | .error e => .error e
  | .ok target =>
    let op := target.bind (fun t => t.currentOperator)
    if doRaise && op.isNone then .error "no current operator"
    else .ok op

/-! ## `complete_list_with` (C10)

    if len(dest) >= len(source): return dest
    while len(dest) < len(source):
      dest.append(update(source[len(dest)]))
    return dest
-/

/-- The `while` loop of `complete_list_with`: append `update(source[len(dest)])`
until `dest` is at least as long as `source`. -/
def clwAux {α β : Type} (dest : List β) (source : List α) (update : α → β) : List β :=
  if h : dest.length < source.length then
    clwAux (dest ++ [update (source.get ⟨dest.length, h⟩)]) source update
  else dest
termination_by source.length - dest.length
decreasing_by simp only [List.length_append, List.length_singleton]; omega

/-- `complete_list_with(dest, source, update)`. -/
def complete_list_with {α β : Type} (dest : List β) (source : List α) (update : α → β) :
    List β :=
  if source.length ≤ dest.length then dest
  else clwAux dest source update

/-! ## Operator name disambiguation (C8)

    if '#' not in name:
      count = target._operator_name_counter[name]   # defaultdict(lambda: 1)
      target._operator_name_counter[name] = count + 1
      name += '#' + str(count)

The per-target `defaultdict` counter is an association list whose lookup
defaults to 1. -/

/-- `target._operator_name_counter[name]` for a `defaultdict(lambda: 1)`. -/
def operatorCounterGet (c : List (List Char × Nat)) (k : List Char) : Nat :=
  (c.lookup k).getD 1

/-- The name-disambiguation step of `operator(...)`: returns the final
operator name and the updated counter state. -/
def operatorName (c : List (List Char × Nat)) (name : List Char) :
    List Char × List (List Char × Nat) :=
  if '#' ∈ name then (name, c)
  else
    (name ++ '#' :: Nat.toDigits 10 (operatorCounterGet c name),
     (name, operatorCounterGet c name + 1) :: c)

/-! ## Property assignment `Target.__setitem__` (C7)

    public = append = False
    while True:
      if not public and prop_name[0] == '@': public, prop_name = True, prop_name[1:]
      elif not append and prop_name[0] == '+': append, prop_name = True, prop_name[1:]
      elif not append and prop_name[-1] == '+': append, prop_name = True, prop_name[:-1]
      else: break
-/

/-- The marker-stripping loop of `Target.__setitem__`.  The loop strips at
most one leading `@` and at most one leading-or-trailing `+` (each strip
sets a flag that disables its branch), so three iterations always reach the
`break`; the fuel-0 case is unreachable from `parseKey`.  On an empty key
Python raises `IndexError`; here `head?`/`getLast?` return `none` and the
loop breaks. -/
def parseKeyLoop : Nat → Bool → Bool → List Char → Bool × Bool × List Char
  | 0, pub, app, key => (pub, app, key)
  | fuel + 1, pub, app, key =>
    if pub = false ∧ key.head? = some '@' then parseKeyLoop fuel true app key.tail
    else if app = false ∧ key.head? = some '+' then parseKeyLoop fuel pub true key.tail
    else if app = false ∧ key.getLast? = some '+' then
      parseKeyLoop fuel pub true key.dropLast
    else (pub, app, key)

/-- The `(public, append, stripped-name)` triple computed by
`Target.__setitem__` for a property key. -/
def parseKey (key : List Char) : Bool × Bool × List Char :=
  parseKeyLoop 3 false false key

/-- In-place assignment into a sparse property container (association list):
replace the value of an existing key, else append the binding. -/
def setRaw : List (List Char × List Nat) → List Char → List Nat →
    List (List Char × List Nat)
  | [], k, v => [(k, v)]
  | (k0, v0) :: rest, k, v =>
    if k0 = k then (k0, v) :: rest else (k0, v0) :: setRaw rest k v

/-- The two property containers of a `Target`: `self.properties` (private)
and `self.public_properties`, each sparse, holding the one list-typed
property under consideration per name. -/
structure PropTarget where
  props : List (List Char × List Nat)
  pubProps : List (List Char × List Nat)
deriving DecidableEq

/-- `Target.__setitem__(prop_name, value)` for a declared-name schema
`declared` and list-typed values: route to the public container on the `@`
marker, merge with the existing value on the `+` marker (the merge rule is
the list type's `inherit`, i.e. concatenation), and on an undeclared
stripped name drop the write with a warning (`NoSuchProperty` is caught and
logged).  Returns the updated target and the warning list.  Modelled from
the spec where proplib is involved: `Properties.is_set` is a sparse-container
membership test and item assignment raises `NoSuchProperty` exactly for
undeclared names. -/
def setitem (declared : List (List Char)) (tgt : PropTarget) (key : List Char)
    (value : List Nat) : PropTarget × List (List Char) :=
  let pk := parseKey key
  let pub := pk.1
  let app := pk.2.1
  let name := pk.2.2
  let dest := if pub then tgt.pubProps else tgt.props
  let v2 := if app && (dest.lookup name).isSome then
      listInherit [(dest.lookup name).getD [], value]
    else value
  if name ∈ declared then
    (if pub then { tgt with pubProps := setRaw dest name v2 }
     else { tgt with props := setRaw dest name v2 }, [])
  else (tgt, [name])

/-! ## Target finalization (C6)

    def finalize_target(target=None):
      if not target:
        target = current_target(do_raise=False)
        if not target: return
      if target.finalized: return
      target.finalized = True
      prev_target = current_target()
      bind_target(target)
      try:
        for x in target.finalizers: ... run x ...
      finally:
        bind_target(prev_target)

Finalizers either perform a side effect or raise; the log records each
executed effect together with the target that was bound as current when it
ran. -/

/-- One finalizer: either performs the side effect `eff id` or raises. -/
inductive FinAction where
  | eff (id : Nat)
  | err (msg : String)
deriving DecidableEq

/-- The state `finalize_target` touches: the current-target binding, the set
of already-finalized targets, and the effect log `(effect id, target bound
while it ran)`. -/
structure FinState where
  current : Option Nat
  finalizedSet : List Nat
  log : List (Nat × Nat)
deriving DecidableEq

/-- Run the finalizer list in order with `boundTarget` bound as current;
stop at the first raising finalizer, returning its error and the partial
log. -/
def runFinalizers : List FinAction → Nat → List (Nat × Nat) →
    Option String × List (Nat × Nat)
  | [], _, log => (none, log)
  | .eff i :: rest, t, log => runFinalizers rest t (log ++ [(i, t)])
  | .err m :: _, _, log => (some m, log)

/-- `finalize_target(t)` with an explicit target: a no-op when `t` is
already finalized; otherwise mark it finalized, rebind current to `t` for
the duration of the finalizer run and restore the previous binding in the
`finally` block even when a finalizer raises.  The `prev_target =
current_target()` call itself raises when no target is bound. -/
def finalize_target (fins : Nat → List FinAction) (t : Nat) (s : FinState) :
    Option String × FinState :=
  if t ∈ s.finalizedSet then (none, s)
  else
    let s1 : FinState := ⟨s.current, t :: s.finalizedSet, s.log⟩
    match s.current with
    | none => (some "no current target", s1)
    | some prev =>
      let r := runFinalizers (fins t) t s1.log
      (r.1, ⟨some prev, s1.finalizedSet, r.2⟩)

/-- The effect ids a finalizer list performs before its first raise. -/
def effectsUntilErr : List FinAction → List Nat
  | [] => []
  | .eff i :: rest => i :: effectsUntilErr rest
  | .err _ :: _ => []

/-! ## Graph persistence (C5)

`Session.to_json` / `Session.load_json` (in src) wrap the structural graph
dump of `craftr.core.build.Master`:

    def to_json(self):
      return {'variant': self._build_variant, 'main_module': self.main_module,
              'data': super().to_json()}
    def load_json(self, data):
      self._build_variant = data['variant']
      self.main_module = data['main_module']
      super().load_json(data['data'])

`Master.to_json`/`Master.load_json` are not under `src/`; the structural
dump is modelled from the spec (§4.5): per target its identity, properties,
dependencies by identity reference with visibility flag, operators with
command templates, and build sets with file-sets/variables/lineage-by-index. -/

/-- A JSON-like value. -/
inductive J where
  | jnull : J
  | jstr : String → J
  | jbool : Bool → J
  | jnum : Nat → J
  | jarr : List J → J
  | jobj : List (String × J) → J

/-- Expect a JSON string. -/
def asStr : J → Option String
  | .jstr s => some s
  | _ => none

/-- Expect a JSON bool. -/
def asBool : J → Option Bool
  | .jbool b => some b
  | _ => none

/-- Expect a JSON number. -/
def asNum : J → Option Nat
  | .jnum n => some n
  | _ => none

/-- Decode every element of a JSON array, failing if any element fails. -/
def decodeEach {α : Type} (dec : J → Option α) : List J → Option (List α)
  | [] => some []
  | j :: js => do
    let x ← dec j
    let xs ← decodeEach dec js
    some (x :: xs)

/-- Encode an optional string (`None` becomes JSON null). -/
def encodeOptStr : Option String → J
  | none => .jnull
  | some s => .jstr s

/-- Decode an optional string. -/
def decodeOptStr : J → Option (Option String)
  | .jnull => some none
  | .jstr s => some (some s)
  | _ => none

/-- Encode an ordered list of strings (a file-set's paths, one command's
tokens). -/
def encodeStrList (xs : List String) : J := .jarr (xs.map .jstr)

/-- Decode an ordered list of strings. -/
def decodeStrList : J → Option (List String)
  | .jarr js => decodeEach asStr js
  | _ => none

/-- Encode a list of lineage indices. -/
def encodeNatList (ns : List Nat) : J := .jarr (ns.map .jnum)

/-- Decode a list of lineage indices. -/
def decodeNatList : J → Option (List Nat)
  | .jarr js => decodeEach asNum js
  | _ => none

/-- Encode a named file-set mapping as an ordered list of `[name, paths]`
pairs. -/
def encodeFileSets (fs : List (String × List String)) : J :=
  .jarr (fs.map (fun p => .jarr [.jstr p.1, encodeStrList p.2]))

/-- Decode one `[name, paths]` pair. -/
def decodeFileSet1 : J → Option (String × List String)
  | .jarr [k, v] => do
    let ks ← asStr k
    let vs ← decodeStrList v
    some (ks, vs)
  | _ => none

/-- Decode a named file-set mapping. -/
def decodeFileSets : J → Option (List (String × List String))
  | .jarr js => decodeEach decodeFileSet1 js
  | _ => none

/-- Encode a string-to-string mapping (variables, property values). -/
def encodeStrPairs (ps : List (String × String)) : J :=
  .jarr (ps.map (fun p => .jarr [.jstr p.1, .jstr p.2]))

/-- Decode one `[key, value]` string pair. -/
def decodeStrPair1 : J → Option (String × String)
  | .jarr [k, v] => do
    let ks ← asStr k
    let vs ← asStr v
    some (ks, vs)
  | _ => none

/-- Decode a string-to-string mapping. -/
def decodeStrPairs : J → Option (List (String × String))
  | .jarr js => decodeEach decodeStrPair1 js
  | _ => none

/-- Encode the dependency list as `[target identity, public]` pairs. -/
def encodeDepPairs (ds : List (String × Bool)) : J :=
  .jarr (ds.map (fun p => .jarr [.jstr p.1, .jbool p.2]))

/-- Decode one `[target identity, public]` pair. -/
def decodeDepPair1 : J → Option (String × Bool)
  | .jarr [k, v] => do
    let ks ← asStr k
    let vs ← asBool v
    some (ks, vs)
  | _ => none

/-- Decode the dependency list. -/
def decodeDepPairs : J → Option (List (String × Bool))
  | .jarr js => decodeEach decodeDepPair1 js
  | _ => none

/-- Modelled from the spec: the structural dump of one `BuildSet` — named
input and output file-sets (ordered), variables, and lineage references by
index. -/
structure BuildSetJ where
  inputs : List (String × List String)
  outputs : List (String × List String)
  vars : List (String × String)
  lineage : List Nat

/-- Modelled from the spec: the structural dump of one `Operator` — its
(disambiguated) name, the ordered command templates, and its ordered
`BuildSet`s. -/
structure OperatorJ where
  name : String
  commands : List (List String)
  buildSets : List BuildSetJ

/-- Modelled from the spec: the structural dump of one `Target` — its
identity, private and public property values, dependencies by identity
reference with visibility flag, and its ordered operators. -/
structure TargetJ where
  id : String
  privProps : List (String × String)
  pubProps : List (String × String)
  deps : List (String × Bool)
  operators : List OperatorJ

/-- Modelled from the spec: the `Master`-level graph data — the ordered
list of all targets. -/
structure GraphData where
  targets : List TargetJ

/-- The `Session` state captured by persistence: the build-variant tag, the
main-module identity, and the graph data. -/
structure SessionS where
  variant : String
  mainModule : Option String
  data : GraphData

/-- Encode one `BuildSet`. -/
def encodeBuildSet (b : BuildSetJ) : J :=
  .jobj [("inputs", encodeFileSets b.inputs), ("outputs", encodeFileSets b.outputs),
         ("variables", encodeStrPairs b.vars), ("lineage", encodeNatList b.lineage)]

/-- Decode one `BuildSet`. -/
def decodeBuildSet : J → Option BuildSetJ
  | .jobj fields => do
    let i ← fields.lookup "inputs" >>= decodeFileSets
    let o ← fields.lookup "outputs" >>= decodeFileSets
    let v ← fields.lookup "variables" >>= decodeStrPairs
    let l ← fields.lookup "lineage" >>= decodeNatList
    some ⟨i, o, v, l⟩
  | _ => none

/-- Encode one `Operator`. -/
def encodeOperator (op : OperatorJ) : J :=
  .jobj [("name", .jstr op.name),
         ("commands", .jarr (op.commands.map encodeStrList)),
         ("build_sets", .jarr (op.buildSets.map encodeBuildSet))]

/-- Decode one `Operator`. -/
def decodeOperator : J → Option OperatorJ
  | .jobj fields => do
    let n ← fields.lookup "name" >>= asStr
    let c ← fields.lookup "commands" >>= fun j =>
      match j with
      | .jarr js => decodeEach decodeStrList js
      | _ => none
    let b ← fields.lookup "build_sets" >>= fun j =>
      match j with
      | .jarr js => decodeEach decodeBuildSet js
      | _ => none
    some ⟨n, c, b⟩
  | _ => none

/-- Encode one `Target`. -/
def encodeTarget (t : TargetJ) : J :=
  .jobj [("id", .jstr t.id),
         ("private", encodeStrPairs t.privProps),
         ("public", encodeStrPairs t.pubProps),
         ("dependencies", encodeDepPairs t.deps),
         ("operators", .jarr (t.operators.map encodeOperator))]

/-- Decode one `Target`. -/
def decodeTarget : J → Option TargetJ
  | .jobj fields => do
    let i ← fields.lookup "id" >>= asStr
    let pr ← fields.lookup "private" >>= decodeStrPairs
    let pu ← fields.lookup "public" >>= decodeStrPairs
    let d ← fields.lookup "dependencies" >>= decodeDepPairs
    let ops ← fields.lookup "operators" >>= fun j =>
      match j with
      | .jarr js => decodeEach decodeOperator js
      | _ => none
    some ⟨i, pr, pu, d, ops⟩
  | _ => none

/-- `Master.to_json` (modelled from the spec): dump every target in order. -/
def encodeGraphData (g : GraphData) : J :=
  .jobj [("targets", .jarr (g.targets.map encodeTarget))]

/-- `Master.load_json` (modelled from the spec). -/
def decodeGraphData : J → Option GraphData
  | .jobj fields => do
    let ts ← fields.lookup "targets" >>= fun j =>
      match j with
      | .jarr js => decodeEach decodeTarget js
      | _ => none
    some ⟨ts⟩
  | _ => none

/-- `Session.to_json` (from src): the variant tag, the main-module identity
and the `Master` dump under the `data` key. -/
def sessionToJson (s : SessionS) : J :=
  .jobj [("variant", .jstr s.variant), ("main_module", encodeOptStr s.mainModule),
         ("data", encodeGraphData s.data)]

/-- `Session.load_json` (from src): read `data['variant']`,
`data['main_module']` and delegate `data['data']` to the `Master`. -/
def sessionLoadJson (j : J) : Option SessionS :=
  match j with
  | .jobj fields => do
    let v ← fields.lookup "variant" >>= asStr
    let m ← fields.lookup "main_module" >>= decodeOptStr
    let d ← fields.lookup "data" >>= decodeGraphData
    some ⟨v, m, d⟩
  | _ => none

/-! # Theorems -/

/-- Every edge yielded below the root (where `include_private=False`) is
public: the guard `if dep.public or include_private` filters the yield. -/
theorem mem_worker_false_public (deps : Nat → List Dep) :
    ∀ fuel t d, d ∈ worker deps fuel t false → d.public = true := by
  intro fuel
  induction fuel with
  | zero => intro t d h; simp [worker] at h
  | succ n ih =>
    intro t d h
    simp only [worker, List.mem_flatMap] at h
    obtain ⟨a, _, hd⟩ := h
    rcases List.mem_append.1 hd with h1 | h2
    · by_cases hp : a.public
      · simp [hp] at h1; rw [h1]; exact hp
      · simp [hp] at h1
    · exact ih a.target d h2

/-- Deduplication only removes elements: membership in `uniqueBy` implies
membership in the raw stream. -/
theorem mem_of_mem_uniqueBy :
    ∀ (l : List Dep) (seen : List Nat) (d : Dep), d ∈ uniqueBy l seen → d ∈ l := by
  intro l
  induction l with
  | nil => intro seen d h; simp [uniqueBy] at h
  | cons x xs ih =>
    intro seen d h
    simp only [uniqueBy] at h
    by_cases hx : x.target ∈ seen
    · simp [hx] at h
      exact List.mem_cons_of_mem _ (ih _ _ h)
    · simp [hx] at h
      rcases h with h | h
      · rw [h]; exact List.mem_cons_self x xs
      · exact List.mem_cons_of_mem _ (ih _ _ h)

/-- The destinations of a deduplicated stream are pairwise distinct and
avoid the already-seen set. -/
theorem uniqueBy_targets_nodup :
    ∀ (l : List Dep) (seen : List Nat),
      ((uniqueBy l seen).map Dep.target).Nodup ∧
        ∀ d ∈ uniqueBy l seen, d.target ∉ seen := by
  intro l
  induction l with
  | nil => intro seen; simp [uniqueBy]
  | cons x xs ih =>
    intro seen
    by_cases hx : x.target ∈ seen
    · simpa [uniqueBy, hx] using ih seen
    · obtain ⟨h1, h2⟩ := ih (x.target :: seen)
      simp only [uniqueBy, if_neg hx, List.map_cons, List.nodup_cons]
      refine ⟨⟨?_, h1⟩, ?_⟩
      · intro hmem
        obtain ⟨d, hd, hdt⟩ := List.mem_map.1 hmem
        exact (h2 d hd) (by rw [hdt]; exact List.mem_cons_self _ _)
      · intro d hd
        rcases List.mem_cons.1 hd with h | h
        · rw [h]; exact hx
        · exact fun hs => (h2 d h) (List.mem_cons_of_mem _ hs)

/-- Each surviving edge is the first edge of the raw stream with its
destination (first-encountered wins). -/
theorem uniqueBy_find :
    ∀ (l : List Dep) (seen : List Nat) (d : Dep), d ∈ uniqueBy l seen →
      d.target ∉ seen ∧ l.find? (fun x => x.target == d.target) = some d := by
  intro l
  induction l with
  | nil => intro seen d h; simp [uniqueBy] at h
  | cons x xs ih =>
    intro seen d h
    simp only [uniqueBy] at h
    by_cases hx : x.target ∈ seen
    · rw [if_pos hx] at h
      obtain ⟨hns, hf⟩ := ih seen d h
      have hne : (x.target == d.target) = false := by
        simp only [beq_eq_false_iff_ne, ne_eq]
        intro he; exact hns (he ▸ hx)
      refine ⟨hns, ?_⟩
      simp [List.find?, hne, hf]
    · rw [if_neg hx] at h
      rcases List.mem_cons.1 h with h | h
      · subst h
        exact ⟨hx, by simp [List.find?]⟩
      · obtain ⟨hns, hf⟩ := ih (x.target :: seen) d h
        have hne : (x.target == d.target) = false := by
          simp only [beq_eq_false_iff_ne, ne_eq]
          intro he
          exact hns (by rw [← he]; exact List.mem_cons_self _ _)
        refine ⟨fun hs => hns (List.mem_cons_of_mem _ hs), ?_⟩
        simp [List.find?, hne, hf]

/-- C1 counterexample: in the graph `E = 0 → A = 1 (public), A → B = 2
(private), B → C = 3 (public)`, nothing else depends on B, yet the edge
`B → C` — reachable from the root only through the non-root private edge
`A → B` — does appear in `E`'s transitive dependencies, contradicting the
claim that no edge reachable only through a non-root private edge appears. -/
theorem transitive_dependencies_private_recursion_counterexample :
    transitive_dependencies depsC1 10 0 = [⟨1, true⟩, ⟨3, true⟩] ∧
    depsC1 1 = [⟨2, false⟩] ∧ depsC1 2 = [⟨3, true⟩] ∧ depsC1 3 = [] ∧
    (∃ d ∈ transitive_dependencies depsC1 10 0, d.target = 3) := by decide

/-- C1 (amended): `transitive_dependencies` includes the root's own edges
(public and private) and, from subsequently visited targets, yields only
public edges; but the traversal recurses through private edges as well, so
public edges reachable only through a non-root private edge still appear.
Every produced edge is public or one of the root's own edges; in the
A-B-E configuration no edge to the privately-depended B appears. -/
theorem transitive_dependencies_amended (deps : Nat → List Dep) (fuel t : Nat) :
    (∀ d ∈ transitive_dependencies deps fuel t, d.public = true ∨ d ∈ deps t) ∧
    (∀ d ∈ transitive_dependencies depsC1 10 0, d.target ≠ 2) := by
  constructor
  · intro d hd
    have hmem : d ∈ worker deps fuel t true := mem_of_mem_uniqueBy _ _ _ hd
    cases fuel with
    | zero => simp [worker] at hmem
    | succ n =>
      simp only [worker, List.mem_flatMap] at hmem
      obtain ⟨a, ha, hd2⟩ := hmem
      rcases List.mem_append.1 hd2 with h1 | h2
      · right
        simp only [Bool.or_true, if_true, List.mem_singleton] at h1
        rw [h1]; exact ha
      · left; exact mem_worker_false_public deps n a.target d h2
  · decide

/-- C1 amended, witness: the root edge `E → A` of the concrete graph is
produced, and it is public or one of the root's own edges. -/
theorem transitive_dependencies_amended_witness :
    (⟨1, true⟩ : Dep).public = true ∨ (⟨1, true⟩ : Dep) ∈ depsC1 0 :=
  (transitive_dependencies_amended depsC1 10 0).1 ⟨1, true⟩ (by decide)

/-- C3: deduplication is by destination target identity; the surviving edge
for each destination is the first-encountered one of the raw depth-first
stream, and in the diamond graph exactly one edge to D = 3 survives. -/
theorem transitive_dependencies_dedup (deps : Nat → List Dep) (fuel t : Nat) :
    ((transitive_dependencies deps fuel t).map Dep.target).Nodup ∧
    (∀ d ∈ transitive_dependencies deps fuel t,
      (worker deps fuel t true).find? (fun x => x.target == d.target) = some d) ∧
    (transitive_dependencies depsDiamond 10 0).filter (fun d => d.target == 3)
      = [⟨3, true⟩] := by
  refine ⟨(uniqueBy_targets_nodup _ []).1, fun d hd => (uniqueBy_find _ [] d hd).2, ?_⟩
  decide

/-- C3 witness: edge `A → B` survives dedup and is the first raw edge with
destination 1 in the diamond graph. -/
theorem transitive_dependencies_dedup_witness :
    (worker depsDiamond 10 0 true).find?
      (fun x => x.target == (⟨1, true⟩ : Dep).target) = some ⟨1, true⟩ :=
  (transitive_dependencies_dedup depsDiamond 10 0).2.1 ⟨1, true⟩ (by decide)

/-- A successful `add_dependency` returns an edge to the requested target and
either leaves the destination list unchanged (merge case) or appends the
new destination at the end (fresh case). -/
theorem add_dependency_ok_spec :
    ∀ (l : List Dep) (u : Nat) (p : Bool) (l' : List Dep) (d : Dep),
      add_dependency l u p false = .ok (l', d) →
      d.target = u ∧
        l'.map Dep.target =
          (if u ∈ l.map Dep.target then l.map Dep.target
           else l.map Dep.target ++ [u]) := by
  intro l
  induction l with
  | nil =>
    intro u p l' d h
    simp only [add_dependency, Except.ok.injEq, Prod.mk.injEq] at h
    obtain ⟨h1, h2⟩ := h
    subst h1; subst h2
    simp
  | cons x xs ih =>
    intro u p l' d h
    simp only [add_dependency] at h
    by_cases hx : x.target = u
    · rw [if_pos hx, if_neg (by simp)] at h
      simp only [Except.ok.injEq, Prod.mk.injEq] at h
      obtain ⟨h1, h2⟩ := h
      subst h1; subst h2
      simp [hx]
    · rw [if_neg hx] at h
      cases hrec : add_dependency xs u p false with
      | error e => rw [hrec] at h; exact absurd h (by simp)
      | ok pr =>
        obtain ⟨ys, d0⟩ := pr
        rw [hrec] at h
        simp only [Except.ok.injEq, Prod.mk.injEq] at h
        obtain ⟨h1, h2⟩ := h
        subst h1; subst h2
        obtain ⟨hd, hmap⟩ := ih u p ys d0 hrec
        refine ⟨hd, ?_⟩
        by_cases hu : u ∈ xs.map Dep.target
        · rw [if_pos hu] at hmap
          have hmem : u ∈ List.map Dep.target (x :: xs) := by
            simp only [List.map_cons, List.mem_cons]; exact Or.inr hu
          rw [List.map_cons, hmap, if_pos hmem, List.map_cons]
        · rw [if_neg hu] at hmap
          have hnm : u ∉ List.map Dep.target (x :: xs) := by
            simp only [List.map_cons, List.mem_cons]
            rintro (h | h)
            · exact hx h.symm
            · exact hu h
          rw [List.map_cons, hmap, if_neg hnm, List.map_cons, List.cons_append]

/-- If an edge to `u` already exists, `add_dependency` with `do_raise=False`
returns that existing edge with the visibility flags OR-merged. -/
theorem add_dependency_merges :
    ∀ (l : List Dep) (u : Nat) (p : Bool) (x : Dep),
      l.find? (fun y => y.target == u) = some x →
      ∃ ys, add_dependency l u p false = .ok (ys, ⟨u, x.public || p⟩) := by
  intro l
  induction l with
  | nil => intro u p x h; simp [List.find?] at h
  | cons z zs ih =>
    intro u p x h
    by_cases hz : z.target = u
    · have hfind : (z :: zs).find? (fun y => y.target == u) = some z := by
        simp [List.find?, hz]
      rw [hfind] at h
      have hzx : z = x := by injection h
      subst hzx
      exact ⟨⟨z.target, z.public || p⟩ :: zs, by simp [add_dependency, hz]⟩
    · have hbeq : (z.target == u) = false := by simp [hz]
      rw [List.find?, hbeq] at h
      obtain ⟨ys, hys⟩ := ih u p x h
      exact ⟨z :: ys, by simp [add_dependency, hz, hys]⟩

/-- If an edge to `u` already exists, `add_dependency` with `do_raise=True`
raises instead of merging. -/
theorem add_dependency_raises :
    ∀ (l : List Dep) (u : Nat) (p : Bool),
      (∃ y ∈ l, y.target = u) →
      add_dependency l u p true = .error "dependency already exists" := by
  intro l
  induction l with
  | nil => intro u p h; simp at h
  | cons z zs ih =>
    intro u p h
    by_cases hz : z.target = u
    · simp [add_dependency, hz]
    · obtain ⟨y, hy, hyt⟩ := h
      rcases List.mem_cons.1 hy with h1 | h1
      · exact absurd (h1 ▸ hyt) hz
      · simp [add_dependency, hz, ih u p ⟨y, h1, hyt⟩]

/-- C4: under the no-duplicate-edge invariant, a successful
`add_dependency(u, p, do_raise=False)` preserves the invariant and leaves
exactly one edge to `u`; re-adding merges visibility with OR and returns the
existing edge; re-adding with `do_raise=True` raises; and concretely,
`add_dependency(5, public=False)` then `add_dependency(5, public=True)`
yields exactly one edge with `public = True`. -/
theorem add_dependency_spec (l l' : List Dep) (u : Nat) (p : Bool) (d x : Dep)
    (hnd : (l.map Dep.target).Nodup) :
    (add_dependency l u p false = .ok (l', d) →
      (l'.map Dep.target).Nodup ∧ (l'.map Dep.target).count u = 1 ∧ d.target = u) ∧
    (l.find? (fun y => y.target == u) = some x →
      ∃ ys, add_dependency l u p false = .ok (ys, ⟨u, x.public || p⟩)) ∧
    ((∃ y ∈ l, y.target = u) →
      add_dependency l u p true = .error "dependency already exists") ∧
    (add_dependency [] 5 false false = .ok ([⟨5, false⟩], ⟨5, false⟩) ∧
     add_dependency [⟨5, false⟩] 5 true false = .ok ([⟨5, true⟩], ⟨5, true⟩)) := by
  refine ⟨?_, add_dependency_merges l u p x, add_dependency_raises l u p, ⟨rfl, rfl⟩⟩
  intro h
  obtain ⟨hd, hmap⟩ := add_dependency_ok_spec l u p l' d h
  by_cases hu : u ∈ l.map Dep.target
  · rw [if_pos hu] at hmap
    rw [hmap]
    exact ⟨hnd, List.count_eq_one_of_mem hnd hu, hd⟩
  · rw [if_neg hu] at hmap
    rw [hmap]
    refine ⟨?_, ?_, hd⟩
    · refine List.nodup_append.2 ⟨hnd, List.nodup_singleton u, fun a ha hb => ?_⟩
      rw [List.mem_singleton] at hb
      exact hu (hb ▸ ha)
    · rw [List.count_append, List.count_eq_zero_of_not_mem hu]
      simp

/-- C4 witness: re-adding the dependency to target 5 with `public=True`
returns the existing edge, visibility OR-merged to `True`. -/
theorem add_dependency_spec_witness :
    ∃ ys, add_dependency [⟨5, false⟩] 5 true false = .ok (ys, ⟨5, false || true⟩) :=
  ((add_dependency_spec [⟨5, false⟩] [⟨5, true⟩] 5 true ⟨5, true⟩ ⟨5, false⟩
    (by decide)).2.1 (by decide))

/-- C2: inherited property resolution builds the candidate sequence in the
order (1) own public value if set, (2) own private value if set, (3) the
public value of each destination of `transitive_dependencies()` in traversal
order if set; the list merge is ordered concatenation, so own public `[1]`,
own private `[2]` and one public dependency exporting `[3]` resolve to
`[1, 2, 3]`; an empty candidate sequence yields the plain default. -/
theorem get_prop_inherit_spec (deps : Nat → List Dep) (pubV prvV : Nat → Option (List Nat))
    (fuel t : Nat) (dflt : List Nat) :
    (inherit_candidates deps pubV prvV fuel t
      = (pubV t).toList ++ (prvV t).toList ++
          ((transitive_dependencies deps fuel t).filterMap (fun d => pubV d.target))) ∧
    (inherit_candidates deps pubV prvV fuel t = [] →
      get_prop_inherit deps pubV prvV fuel t dflt = dflt) ∧
    (inherit_candidates deps pubV prvV fuel t ≠ [] →
      get_prop_inherit deps pubV prvV fuel t dflt
        = (inherit_candidates deps pubV prvV fuel t).flatten) ∧
    (get_prop_inherit depsC2 pubValsC2 prvValsC2 10 0 [] = [1, 2, 3]) := by
  refine ⟨rfl, ?_, ?_, by decide⟩
  · intro h
    rw [get_prop_inherit, h]
    rfl
  · intro h
    rw [get_prop_inherit]
    rw [if_neg (by simpa [List.isEmpty_iff] using h)]
    rfl

/-- C2 witness: in the one-dependency example graph the candidate sequence
is non-empty, so the merge is the concatenation of the candidates. -/
theorem get_prop_inherit_spec_witness :
    get_prop_inherit depsC2 pubValsC2 prvValsC2 10 0 []
      = (inherit_candidates depsC2 pubValsC2 prvValsC2 10 0).flatten :=
  (get_prop_inherit_spec depsC2 pubValsC2 prvValsC2 10 0 []).2.2.1 (by decide)

/-- C9: a context accessor called with `do_raise` true while its context is
unbound fails hard naming the missing context: no scope on the stack makes
`current_scope` raise `no current scope`; a named scope without a bound
target makes `current_target` raise `no current target`; a bound target
without a bound operator makes `current_operator` raise
`no current operator`. -/
theorem current_context_errors :
    (∀ st : SessionCtx, st.scopes = [] →
      current_scope st true = .error "no current scope") ∧
    (∀ (st : SessionCtx) (sc : ScopeS),
      st.scopes.getLast? = some sc → falsyStr sc.name = false →
      falsyStr sc.version = false → sc.currentTarget = none →
      current_target st true = .error "no current target") ∧
    (∀ (st : SessionCtx) (sc : ScopeS) (tr : TargetRef),
      st.scopes.getLast? = some sc → falsyStr sc.name = false →
      falsyStr sc.version = false → sc.currentTarget = some tr →
      tr.currentOperator = none →
      current_operator st true = .error "no current operator") := by
  refine ⟨?_, ?_, ?_⟩
  · intro st h
    rw [current_scope]
    simp [sessionCurrentScope, h]
  · intro st sc hsc hn hv ht
    have hscope : current_scope st true = .ok (some sc) := by
      rw [current_scope]
      simp [sessionCurrentScope, hsc, hn, hv]
    rw [current_target, hscope]
    simp [ht]
  · intro st sc tr hsc hn hv ht hop
    have hscope : current_scope st true = .ok (some sc) := by
      rw [current_scope]
      simp [sessionCurrentScope, hsc, hn, hv]
    have htarget : current_target st true = .ok (some tr) := by
      rw [current_target, hscope]
      simp [ht]
    rw [current_operator, htarget]
    simp [hop]

/-- C9 witness: on the empty session state `current_scope` raises
`no current scope`; with a named scope but no bound target `current_target`
raises `no current target`; with a bound target but no bound operator
`current_operator` raises `no current operator`. -/
theorem current_context_errors_witness :
    current_scope ⟨[]⟩ true = .error "no current scope" ∧
    current_target ⟨[⟨some ['m'], some ['1'], none⟩]⟩ true
      = .error "no current target" ∧
    current_operator ⟨[⟨some ['m'], some ['1'], some ⟨0, none⟩⟩]⟩ true
      = .error "no current operator" :=
  ⟨current_context_errors.1 ⟨[]⟩ rfl,
   current_context_errors.2.1 ⟨[⟨some ['m'], some ['1'], none⟩]⟩
     ⟨some ['m'], some ['1'], none⟩ rfl rfl rfl rfl,
   current_context_errors.2.2 ⟨[⟨some ['m'], some ['1'], some ⟨0, none⟩⟩]⟩
     ⟨some ['m'], some ['1'], some ⟨0, none⟩⟩ ⟨0, none⟩ rfl rfl rfl rfl rfl⟩

/-- The loop extends `dest` with the image under `update` of the tail of
`source` past the original length of `dest`. -/
theorem clwAux_eq {α β : Type} (source : List α) (update : α → β) :
    ∀ dest : List β,
      clwAux dest source update = dest ++ (source.drop dest.length).map update := by
  have key : ∀ (k : Nat) (dest : List β), source.length - dest.length = k →
      clwAux dest source update = dest ++ (source.drop dest.length).map update := by
    intro k
    induction k with
    | zero =>
      intro dest hk
      have h : ¬ dest.length < source.length := by omega
      rw [clwAux, dif_neg h, List.drop_eq_nil_of_le (by omega), List.map_nil,
        List.append_nil]
    | succ n ih =>
      intro dest hk
      have h : dest.length < source.length := by omega
      rw [clwAux, dif_pos h]
      rw [ih (dest ++ [update (source.get ⟨dest.length, h⟩)])
        (by simp only [List.length_append, List.length_singleton]; omega)]
      rw [List.append_assoc, List.length_append, List.length_singleton]
      congr 1
      rw [List.drop_eq_getElem_cons h, List.map_cons, List.singleton_append]
      rfl
  exact fun dest => key (source.length - dest.length) dest rfl

/-- C10: `complete_list_with` returns `dest` unchanged when it is already at
least as long as `source`; otherwise it extends `dest` with
`update(source[i])` for the missing indices, so the result is always
`dest ++ map update (drop (len dest) source)`, has length
`max (len dest) (len source)`, and keeps the original elements of `dest` as
its prefix. -/
theorem complete_list_with_spec {α β : Type} (dest : List β) (source : List α)
    (update : α → β) :
    complete_list_with dest source update
        = dest ++ (source.drop dest.length).map update ∧
    (source.length ≤ dest.length → complete_list_with dest source update = dest) ∧
    (complete_list_with dest source update).length = max dest.length source.length ∧
    (complete_list_with dest source update).take dest.length = dest := by
  have hmain : complete_list_with dest source update
      = dest ++ (source.drop dest.length).map update := by
    by_cases h : source.length ≤ dest.length
    · rw [complete_list_with, if_pos h, List.drop_eq_nil_of_le h, List.map_nil,
        List.append_nil]
    · rw [complete_list_with, if_neg h, clwAux_eq]
  refine ⟨hmain, ?_, ?_, ?_⟩
  · intro h
    rw [hmain, List.drop_eq_nil_of_le h, List.map_nil, List.append_nil]
  · rw [hmain, List.length_append, List.length_map, List.length_drop]
    omega
  · rw [hmain, List.take_left]

/-- C10 witness: a `dest` already longer than `source` is returned
unchanged. -/
theorem complete_list_with_spec_witness :
    complete_list_with [5, 6, 7] ([9, 9] : List Nat) (fun x => x + 1) = [5, 6, 7] :=
  (complete_list_with_spec [5, 6, 7] [9, 9] (fun x => x + 1)).2.1 (by decide)

/-- C8: with no explicit disambiguator in the base name and a fresh counter,
the first operator is named `name#1`, the second `name#2` (the per-base-name
counter starts at 1 and increments on each use); a name already containing
the disambiguator is used unchanged and the counter is untouched. -/
theorem operator_name_spec (c : List (List Char × Nat)) (name : List Char)
    (h : '#' ∉ name) (hfresh : c.lookup name = none) :
    (operatorName c name).1 = name ++ ['#', '1'] ∧
    (operatorName (operatorName c name).2 name).1 = name ++ ['#', '2'] ∧
    (∀ c2 n2, '#' ∈ n2 → operatorName c2 n2 = (n2, c2)) := by
  have hstate : (operatorName c name).2 = (name, 2) :: c := by
    rw [operatorName, if_neg h]
    simp [operatorCounterGet, hfresh]
  refine ⟨?_, ?_, fun c2 n2 h2 => by rw [operatorName, if_pos h2]⟩
  · rw [operatorName, if_neg h]
    simp only [operatorCounterGet, hfresh, Option.getD_none]
    rw [show Nat.toDigits 10 1 = ['1'] from by decide]
  · rw [hstate, operatorName, if_neg h]
    have hlook : ((name, 2) :: c).lookup name = some 2 := by
      simp [List.lookup]
    simp only [operatorCounterGet, hlook, Option.getD_some]
    rw [show Nat.toDigits 10 2 = ['2'] from by decide]

/-- C8 witness: from a fresh counter, base name `copy` yields operator name
`copy#1`. -/
theorem operator_name_spec_witness :
    (operatorName [] ['c', 'o', 'p', 'y']).1 = ['c', 'o', 'p', 'y'] ++ ['#', '1'] :=
  (operator_name_spec [] ['c', 'o', 'p', 'y'] (by decide) rfl).1

/-- One unfolding step of the marker-stripping loop. -/
theorem parseKeyLoop_succ (fuel : Nat) (pub app : Bool) (key : List Char) :
    parseKeyLoop (fuel + 1) pub app key =
      if pub = false ∧ key.head? = some '@' then parseKeyLoop fuel true app key.tail
      else if app = false ∧ key.head? = some '+' then parseKeyLoop fuel pub true key.tail
      else if app = false ∧ key.getLast? = some '+' then
        parseKeyLoop fuel pub true key.dropLast
      else (pub, app, key) := rfl

/-- A name with no marker at either end passes the loop unchanged, whatever
the flag state. -/
theorem parseKeyLoop_plain (n : List Char) (h1 : n.head? ≠ some '@')
    (h2 : n.head? ≠ some '+') (h3 : n.getLast? ≠ some '+') (fuel : Nat)
    (pub app : Bool) : parseKeyLoop (fuel + 1) pub app n = (pub, app, n) := by
  rw [parseKeyLoop_succ]
  rw [if_neg (fun h => h1 h.2), if_neg (fun h => h2 h.2), if_neg (fun h => h3 h.2)]

/-- A plain name parses to itself with both flags off. -/
theorem parseKey_plain (n : List Char) (h1 : n.head? ≠ some '@')
    (h2 : n.head? ≠ some '+') (h3 : n.getLast? ≠ some '+') :
    parseKey n = (false, false, n) :=
  parseKeyLoop_plain n h1 h2 h3 2 false false

/-- A leading `@` is stripped and sets the public flag. -/
theorem parseKey_at (n : List Char) (h1 : n.head? ≠ some '@')
    (h2 : n.head? ≠ some '+') (h3 : n.getLast? ≠ some '+') :
    parseKey ('@' :: n) = (true, false, n) := by
  have step : parseKey ('@' :: n) = parseKeyLoop 2 true false n := rfl
  rw [step]
  exact parseKeyLoop_plain n h1 h2 h3 1 true false

/-- A leading `+` is stripped and sets the append flag. -/
theorem parseKey_plusLead (n : List Char) (h1 : n.head? ≠ some '@')
    (h2 : n.head? ≠ some '+') (h3 : n.getLast? ≠ some '+') :
    parseKey ('+' :: n) = (false, true, n) := by
  have step : parseKey ('+' :: n) = parseKeyLoop 2 false true n := rfl
  rw [step]
  exact parseKeyLoop_plain n h1 h2 h3 1 false true

/-- A trailing `+` is stripped and sets the append flag. -/
theorem parseKey_plusOnly (n : List Char) (hne : n ≠ []) (h1 : n.head? ≠ some '@')
    (h2 : n.head? ≠ some '+') (h3 : n.getLast? ≠ some '+') :
    parseKey (n ++ ['+']) = (false, true, n) := by
  cases n with
  | nil => exact absurd rfl hne
  | cons a as =>
    rw [parseKey, parseKeyLoop_succ 2]
    rw [if_neg (fun h => h1 h.2), if_neg (fun h => h2 h.2),
      if_pos ⟨rfl, List.getLast?_concat _⟩, List.dropLast_concat]
    exact parseKeyLoop_plain (a :: as) h1 h2 h3 1 false true

/-- A leading `@` plus a trailing `+` strip to the bare name with both flags
set. -/
theorem parseKey_atPlus (n : List Char) (hne : n ≠ []) (h1 : n.head? ≠ some '@')
    (h2 : n.head? ≠ some '+') (h3 : n.getLast? ≠ some '+') :
    parseKey ('@' :: (n ++ ['+'])) = (true, true, n) := by
  cases n with
  | nil => exact absurd rfl hne
  | cons a as =>
    have step : parseKey ('@' :: ((a :: as) ++ ['+']))
        = parseKeyLoop 2 true false ((a :: as) ++ ['+']) := rfl
    rw [step, parseKeyLoop_succ 1]
    rw [if_neg (by simp), if_neg (fun h => h2 h.2),
      if_pos ⟨rfl, List.getLast?_concat _⟩, List.dropLast_concat]
    exact parseKeyLoop_plain (a :: as) h1 h2 h3 0 true true

/-- C7: `Target.__setitem__` key handling for a plain property name `n` (no
marker at either end): a leading `@` (and a leading-or-trailing `+`) is
stripped before schema lookup, `@` routes the write to the public container,
`+` appends via the list merge rule instead of overwriting, and a write to a
name not declared in the `PropertySet` is dropped with a warning instead of
raising. -/
theorem setitem_spec (declared : List (List Char)) (tgt : PropTarget)
    (n : List Char) (v old : List Nat)
    (hne : n ≠ []) (h1 : n.head? ≠ some '@') (h2 : n.head? ≠ some '+')
    (h3 : n.getLast? ≠ some '+') :
    (parseKey ('@' :: n) = (true, false, n) ∧
     parseKey ('+' :: n) = (false, true, n) ∧
     parseKey (n ++ ['+']) = (false, true, n) ∧
     parseKey ('@' :: (n ++ ['+'])) = (true, true, n) ∧
     parseKey n = (false, false, n)) ∧
    (n ∈ declared → tgt.pubProps.lookup n = none →
      setitem declared tgt ('@' :: n) v
        = ({ tgt with pubProps := setRaw tgt.pubProps n v }, [])) ∧
    (n ∈ declared → tgt.props.lookup n = some old →
      setitem declared tgt (n ++ ['+']) v
        = ({ tgt with props := setRaw tgt.props n (old ++ v) }, [])) ∧
    (∀ (key : List Char) (w : List Nat), (parseKey key).2.2 ∉ declared →
      setitem declared tgt key w = (tgt, [(parseKey key).2.2])) := by
  refine ⟨⟨parseKey_at n h1 h2 h3, parseKey_plusLead n h1 h2 h3,
    parseKey_plusOnly n hne h1 h2 h3,
    parseKey_atPlus n hne h1 h2 h3, parseKey_plain n h1 h2 h3⟩, ?_, ?_, ?_⟩
  · intro hdecl hnone
    simp only [setitem, parseKey_at n h1 h2 h3]
    simp [hdecl, hnone]
  · intro hdecl hsome
    simp only [setitem, parseKey_plusOnly n hne h1 h2 h3]
    simp [hdecl, hsome, listInherit]
  · intro key w hnot
    simp only [setitem]
    simp [hnot]

/-- C7 witness: on the schema declaring only `cflags`, writing the key
`@cflags` routes `[1]` to the public container, and writing the key
`cflags+` after a private value `[1]` appends to give `[1, 2]`. -/
theorem setitem_spec_witness :
    setitem [['c', 'f']] ⟨[], []⟩ ('@' :: ['c', 'f']) [1]
      = (⟨[], [(['c', 'f'], [1])]⟩, []) ∧
    setitem [['c', 'f']] ⟨[(['c', 'f'], [1])], []⟩ (['c', 'f'] ++ ['+']) [2]
      = (⟨[(['c', 'f'], [1, 2])], []⟩, []) := by
  constructor
  · exact (setitem_spec [['c', 'f']] ⟨[], []⟩ ['c', 'f'] [1] []
      (by decide) (by decide) (by decide) (by decide)).2.1 (by decide) rfl
  · exact (setitem_spec [['c', 'f']] ⟨[(['c', 'f'], [1])], []⟩ ['c', 'f'] [2] [1]
      (by decide) (by decide) (by decide) (by decide)).2.2.1 (by decide) rfl

/-- Running a finalizer list appends exactly the effects before the first
raise, each tagged with the bound target. -/
theorem runFinalizers_log :
    ∀ (fins : List FinAction) (t : Nat) (log : List (Nat × Nat)),
      (runFinalizers fins t log).2 = log ++ (effectsUntilErr fins).map (fun i => (i, t)) := by
  intro fins
  induction fins with
  | nil => intro t log; simp [runFinalizers, effectsUntilErr]
  | cons a rest ih =>
    intro t log
    cases a with
    | eff i => simp [runFinalizers, effectsUntilErr, ih]
    | err m => simp [runFinalizers, effectsUntilErr]

/-- After any call of `finalize_target` on `t`, `t` is marked finalized. -/
theorem finalize_target_marks (fins : Nat → List FinAction) (t : Nat) (s : FinState) :
    t ∈ (finalize_target fins t s).2.finalizedSet := by
  rw [finalize_target]
  by_cases h : t ∈ s.finalizedSet
  · rw [if_pos h]; exact h
  · rw [if_neg h]
    cases s.current with
    | none => exact List.mem_cons_self _ _
    | some prev => exact List.mem_cons_self _ _

/-- C6: `finalize_target` restores the previously bound current target in
its `finally` block, even when a finalizer raises; a second invocation on
the same target is a no-op (the target is already marked finalized), so the
finalizer side effects run exactly once — every effect logged by the run is
tagged with the target being finalized; concretely, a raising finalizer
list still leaves the current binding restored and only the effects before
the raise logged. -/
theorem finalize_target_spec (fins : Nat → List FinAction) (t : Nat) (s : FinState) :
    ((finalize_target fins t s).2.current = s.current) ∧
    (finalize_target fins t (finalize_target fins t s).2
        = (none, (finalize_target fins t s).2)) ∧
    (t ∉ s.finalizedSet → s.current ≠ none →
      (finalize_target fins t s).2.log
          = s.log ++ (effectsUntilErr (fins t)).map (fun i => (i, t)) ∧
      ∀ e ∈ (effectsUntilErr (fins t)).map (fun i => (i, t)), e.2 = t) ∧
    (finalize_target (fun _ => [.eff 7, .err "boom"]) 3 ⟨some 42, [], []⟩
        = (some "boom", ⟨some 42, [3], [(7, 3)]⟩)) := by
  refine ⟨?_, ?_, ?_, rfl⟩
  · rw [finalize_target]
    by_cases h : t ∈ s.finalizedSet
    · rw [if_pos h]
    · rw [if_neg h]
      cases hc : s.current with
      | none => rfl
      | some prev => rfl
  · rw [finalize_target, if_pos (finalize_target_marks fins t s)]
  · intro hnf hc
    rw [finalize_target, if_neg hnf]
    cases hcur : s.current with
    | none => exact absurd hcur hc
    | some prev =>
      refine ⟨?_, by simp⟩
      exact runFinalizers_log (fins t) t s.log

/-- C6 witness: with target 3 not yet finalized and target 42 bound as
current, the raising finalizer list logs exactly the one effect before the
raise, tagged with target 3. -/
theorem finalize_target_spec_witness :
    (finalize_target (fun _ => [FinAction.eff 7, FinAction.err "boom"]) 3
        ⟨some 42, [], []⟩).2.log
      = [] ++ (effectsUntilErr [FinAction.eff 7, FinAction.err "boom"]).map
          (fun i => (i, 3)) ∧
    ∀ e ∈ (effectsUntilErr [FinAction.eff 7, FinAction.err "boom"]).map
        (fun i => (i, 3)), e.2 = 3 :=
  (finalize_target_spec (fun _ => [FinAction.eff 7, FinAction.err "boom"]) 3
    ⟨some 42, [], []⟩).2.2.1 (by simp) (by simp)

/-- Element-wise decoding inverts element-wise encoding. -/
theorem decodeEach_map {α : Type} (enc : α → J) (dec : J → Option α)
    (h : ∀ a, dec (enc a) = some a) :
    ∀ xs : List α, decodeEach dec (xs.map enc) = some xs := by
  intro xs
  induction xs with
  | nil => rfl
  | cons a as ih => simp [decodeEach, h, ih]

/-- String lists round-trip. -/
theorem strList_roundtrip (xs : List String) :
    decodeStrList (encodeStrList xs) = some xs :=
  decodeEach_map J.jstr asStr (fun _ => rfl) xs

/-- Optional strings round-trip. -/
theorem optStr_roundtrip (o : Option String) :
    decodeOptStr (encodeOptStr o) = some o := by
  cases o <;> rfl

/-- Lineage index lists round-trip. -/
theorem natList_roundtrip (ns : List Nat) :
    decodeNatList (encodeNatList ns) = some ns :=
  decodeEach_map J.jnum asNum (fun _ => rfl) ns

/-- Named file-set mappings round-trip. -/
theorem fileSets_roundtrip (fs : List (String × List String)) :
    decodeFileSets (encodeFileSets fs) = some fs :=
  decodeEach_map _ decodeFileSet1
    (fun p => by simp [decodeFileSet1, asStr, strList_roundtrip]) fs

/-- String-to-string mappings round-trip. -/
theorem strPairs_roundtrip (ps : List (String × String)) :
    decodeStrPairs (encodeStrPairs ps) = some ps :=
  decodeEach_map _ decodeStrPair1 (fun p => by simp [decodeStrPair1, asStr]) ps

/-- Dependency-reference lists round-trip. -/
theorem depPairs_roundtrip (ds : List (String × Bool)) :
    decodeDepPairs (encodeDepPairs ds) = some ds :=
  decodeEach_map _ decodeDepPair1 (fun p => by simp [decodeDepPair1, asStr, asBool]) ds

/-- `BuildSet` dumps round-trip. -/
theorem buildSet_roundtrip (b : BuildSetJ) :
    decodeBuildSet (encodeBuildSet b) = some b := by
  simp [encodeBuildSet, decodeBuildSet, List.lookup, fileSets_roundtrip,
    strPairs_roundtrip, natList_roundtrip]

/-- `Operator` dumps round-trip. -/
theorem operator_roundtrip (op : OperatorJ) :
    decodeOperator (encodeOperator op) = some op := by
  simp [encodeOperator, decodeOperator, List.lookup, asStr,
    decodeEach_map encodeStrList decodeStrList strList_roundtrip,
    decodeEach_map encodeBuildSet decodeBuildSet buildSet_roundtrip]

/-- `Target` dumps round-trip. -/
theorem target_roundtrip (t : TargetJ) :
    decodeTarget (encodeTarget t) = some t := by
  simp [encodeTarget, decodeTarget, List.lookup, asStr, strPairs_roundtrip,
    depPairs_roundtrip,
    decodeEach_map encodeOperator decodeOperator operator_roundtrip]

/-- `Master`-level graph dumps round-trip. -/
theorem graphData_roundtrip (g : GraphData) :
    decodeGraphData (encodeGraphData g) = some g := by
  simp [encodeGraphData, decodeGraphData, List.lookup,
    decodeEach_map encodeTarget decodeTarget target_roundtrip]

/-- C5: serializing a `Session` state and deserializing the result
reconstructs it exactly — the build-variant tag and main-module identity
are restored, and every target identity, dependency visibility flag,
operator and build-set ordering, property value, file-set content and
lineage reference is identical to the original. -/
theorem session_json_roundtrip (s : SessionS) :
    sessionLoadJson (sessionToJson s) = some s := by
  simp [sessionToJson, sessionLoadJson, List.lookup, asStr, optStr_roundtrip,
    graphData_roundtrip]

end Craftr
